import Mathlib

/-!
Verification development for the `scatters` repository (a terminal word-scatter
generator written in Rust).  The Rust sources are shallowly embedded below:

* machine integers (`u16`, `usize`) are modelled as `Nat`; `saturating_sub` is
  Nat subtraction; the cast `word.len() as u16` (Rust `str::len` is the byte
  length, `String.utf8ByteSize`) and every `u16` addition that can overflow
  are modelled by reduction modulo 2^16 (release-mode wrap-around);
* the thread-local random generator is modelled as an oracle stream
  `s : Nat → Nat` together with an explicit position index: each `gen_range`
  call consumes one stream value and reduces it modulo the size of the
  requested range; `gen_range` on an empty range is a library panic and is
  modelled by `Option.none`;
* the library routines `choose_multiple` and `shuffle` (from the external
  `rand` crate) are modelled by an oracle `sample : Nat → List String` that
  yields the already-shuffled selection for a requested count; theorems state
  the contract they rely on (`(sample c).length = min c pool.length`,
  membership in the pool) as explicit hypotheses;
* the only use of the `f32` density is the intermediate
  `((area as f32 / 40.0) * density) as usize`; this truncated value is
  abstracted as the parameter `baseRaw`, and theorems quantify over all its
  values, which covers every `f32` density;
* fallible computation (a reachable panic) is an `Option` result.
-/

/-! Random-oracle model of `rand::Rng::gen_range`. -/

/-- Model of `rng.gen_range(lo..=hi)` (inclusive range): consumes the stream
value at position `i`.  The range is nonempty whenever `lo ≤ hi`, which always
holds for the calls the program makes with `lo = 0`. -/
def genRangeIncl (s : Nat → Nat) (i lo hi : Nat) : Option Nat :=
  if lo ≤ hi then some (lo + s i % (hi + 1 - lo)) else none

/-- Model of `rng.gen_range(lo..hi)` (exclusive range): consumes the stream
value at position `i`.  An empty range (`hi ≤ lo`) panics in `rand`, modelled
by `none`. -/
def genRangeExcl (s : Nat → Nat) (i lo hi : Nat) : Option Nat :=
  if lo < hi then some (lo + s i % (hi - lo)) else none

/-! Embedding of `src/scatters.rs`. -/

/-- The `ScatteredWord` struct of `scatters.rs`. -/
structure ScatteredWord where
  word : String
  x : Nat
  y : Nat
deriving DecidableEq, Repr

/-- The wrapping 16-bit reduction: the value of an `as u16` cast, and of a
`u16` addition that overflows (release-mode wrap-around semantics). -/
def u16 (n : Nat) : Nat := n % 65536

/-- The free function `is_overlapping_tight` of `scatters.rs`, under
release-mode wrapping semantics: `word.len() as u16` truncates to 16 bits,
the `u16` sums `x + word_len`, `ox + olen`, `x_end + min_gap` and
`ox_end + min_gap` wrap, and the second condition
`(y as i16 - oy as i16).abs() <= 0` holds exactly when the wrapped 16-bit
difference of the rows is 0, or is the value -32768 (32768 as unsigned),
whose wrapping absolute value is itself negative. -/
def is_overlapping_tight (x y : Nat) (word : String) (occupied : List (Nat × Nat × Nat)) : Bool :=
  let word_len := u16 word.utf8ByteSize
  let min_gap := 2
  occupied.any fun o =>
    let ox := o.1
    let oy := o.2.1
    let olen := o.2.2
    let x_end := u16 (x + word_len)
    let ox_end := u16 (ox + olen)
    let rowDiff := (u16 y + 65536 - u16 oy) % 65536
    (decide (y = oy) && decide (u16 (x_end + min_gap) > ox) && decide (x < u16 (ox_end + min_gap)))
      ||
    ((decide (rowDiff = 0) || decide (rowDiff = 32768))
      && decide (u16 (x_end + min_gap) > ox) && decide (x < u16 (ox_end + min_gap)))

/-- Loop state of `generate_with_density`: the output vector
`scattered_words`, the vector `occupied_positions` (which the source pushes to
only on collision-checked success, never on fallback), and the current
position in the random stream. -/
structure GenState where
  scattered : List ScatteredWord
  occupied : List (Nat × Nat × Nat)
  idx : Nat
deriving DecidableEq, Repr

/-- The `while attempts < max_attempts` retry loop of `generate_with_density`,
for one word.  `fuel` is the number of remaining attempts (invoked with 100,
so the stored `attempts` counter of the source equals `100 - fuel` plus the
initial counter value).  Returns `(outcome, attempts, idx)` where `outcome`
is the accepted coordinate pair if the loop placed the word, and `attempts`
is the final value of the source counter; `none` models a panic of
`gen_range` (empty `0..height` range). -/
def placeAttempts (s : Nat → Nat) (width height : Nat) (word : String)
    (occupied : List (Nat × Nat × Nat)) :
    Nat → Nat → Nat → Option (Option (Nat × Nat) × Nat × Nat)
  | attempts, idx, 0 => some (none, attempts, idx)
  | attempts, idx, fuel + 1 =>
    let max_x := width - u16 word.utf8ByteSize
    if max_x = 0 then
      some (none, attempts, idx)
    else
      match genRangeIncl s idx 0 max_x, genRangeExcl s (idx + 1) 0 height with
      | some x, some y =>
        if ! is_overlapping_tight x y word occupied then
          some (some (x, y), attempts, idx + 2)
        else
          placeAttempts s width height word occupied (attempts + 1) (idx + 2) fuel
      | _, _ => none

/-- The fallback placement of `generate_with_density` (reached when the retry
loop did not place the word and the word fits the width): one unchecked
random position; `x` consumes a stream value only when `max_x > 0`. -/
def placeFallback (s : Nat → Nat) (width height : Nat) (word : String) (idx : Nat) :
    Option ((Nat × Nat) × Nat) :=
  let max_x := width - u16 word.utf8ByteSize
  if 0 < max_x then
    match genRangeIncl s idx 0 max_x, genRangeExcl s (idx + 1) 0 height with
    | some x, some y => some ((x, y), idx + 2)
    | _, _ => none
  else
    match genRangeExcl s idx 0 height with
    | some y => some ((0, y), idx + 1)
    | _ => none

/-- The body of the `for word in selected_words` loop of
`generate_with_density`: the bounded retry loop (100 attempts), then the
collision-checked success push (to both `scattered_words` and
`occupied_positions`, recording the wrapped 16-bit length), or the fallback
push (to `scattered_words` only, guarded by
`usable_width >= word.len() as u16`). -/
def placeWord (s : Nat → Nat) (width height : Nat) (st : GenState) (word : String) :
    Option GenState :=
  match placeAttempts s width height word st.occupied 0 st.idx 100 with
  | none => none
  | some (some (x, y), _, idx) =>
    some ⟨st.scattered ++ [⟨word, x, y⟩], st.occupied ++ [(x, y, u16 word.utf8ByteSize)], idx⟩
  | some (none, _, idx) =>
    if u16 word.utf8ByteSize ≤ width then
      match placeFallback s width height word idx with
      | some ((x, y), idx2) => some ⟨st.scattered ++ [⟨word, x, y⟩], st.occupied, idx2⟩
      | none => none
    else
      some ⟨st.scattered, st.occupied, idx⟩

/-- The value `base_count` of the source: `baseRaw` abstracts the truncated
float `((canvas_area as f32 / 40.0) * density) as usize`, then
`base_count.max(2)`. -/
def base_count (baseRaw : Nat) : Nat := max baseRaw 2

/-- The value `min_count` of the source: `(base_count * 70 / 100).max(2)`. -/
def min_count (baseRaw : Nat) : Nat := max (base_count baseRaw * 70 / 100) 2

/-- The value `max_count` of the source:
`(base_count * 130 / 100).min(word_pool.len())`. -/
def max_count (baseRaw poolLen : Nat) : Nat :=
  min (base_count baseRaw * 130 / 100) poolLen

/-- The drawn word count of the source: `rng.gen_range(min_count..=max_count)`
when `min_count < max_count` (a nonempty range, so the `getD` default is never
used), otherwise `min_count.min(word_pool.len())`.  The count draw consumes
stream position 0. -/
def drawCount (s : Nat → Nat) (poolLen baseRaw : Nat) : Nat :=
  if min_count baseRaw < max_count baseRaw poolLen then
    (genRangeIncl s 0 (min_count baseRaw) (max_count baseRaw poolLen)).getD 0
  else
    min (min_count baseRaw) poolLen

/-- The whole of `ScattersGenerator::generate_with_density`, returning the
full loop state.  `sample` is the oracle for `choose_multiple` followed by
`shuffle`; the placement loop consumes the random stream from position 1. -/
def generateState (pool : List String) (width height baseRaw : Nat)
    (sample : Nat → List String) (s : Nat → Nat) : Option GenState :=
  let count := drawCount s pool.length baseRaw
  let selected := sample count
  List.foldlM (placeWord s width height) ⟨[], [], 1⟩ selected

/-- `generate_with_density` as the caller sees it: the `scattered_words`
vector (or a panic, modelled as `none`). -/
def generate_with_density (pool : List String) (width height baseRaw : Nat)
    (sample : Nat → List String) (s : Nat → Nat) : Option (List ScatteredWord) :=
  (generateState pool width height baseRaw sample s).map GenState.scattered

/-- The sampling oracle used for concrete runs in witnesses and
counterexamples: it satisfies the `choose_multiple`/`shuffle` contract
(`(takeSample pool c).length = min c pool.length`, members drawn from the
pool). -/
def takeSample (pool : List String) : Nat → List String := fun c => List.take c pool

/-- Minimum-gap separation actually enforced by the collision check: two
same-row spans have at least the 2-cell minimum gap between them (the end of
one span, padded by the full gap, does not pass the start of the other). -/
def rowSeparated (p q : Nat × Nat × Nat) : Prop :=
  p.2.1 = q.2.1 → (p.1 + p.2.2 + 2 ≤ q.1 ∨ q.1 + q.2.2 + 2 ≤ p.1)

/-- The non-overlap property exactly as the claim words it: the two spans,
each padded by the minimum gap of 2 cells on each side, do not intersect
(stated over `Int` so the left padding cannot truncate at zero). -/
def paddedSpansDisjoint (p q : Nat × Nat × Nat) : Prop :=
  p.2.1 = q.2.1 →
    ((p.1 : Int) + p.2.2 + 2 ≤ (q.1 : Int) - 2 ∨ (q.1 : Int) + q.2.2 + 2 ≤ (p.1 : Int) - 2)

/-- Random stream used by the run refuting the padded-by-two reading: it
places the first word at x = 0 and the second at x = 5 on the same row. -/
def streamGapTwo : Nat → Nat := fun i => if i = 3 then 5 else 0

/-- Random stream used by the confirming two-row run: the second word is sent
to row 1. -/
def streamTwoRows : Nat → Nat := fun i => if i = 4 then 1 else 0

/-- A vocabulary word of 65537 bytes (65537 ASCII characters): its
`as u16` length wraps to 1, so the program treats it as one cell wide. -/
def monsterWord : String := String.mk (List.replicate 65537 'a')

/-! Embedding of `src/word_bank.rs`.  The Rust `HashSet<String>` is modelled
as a list with membership-checked insertion, so that set-cardinality facts
(each member occurs exactly once) are visible as `List.Nodup`. -/

/-- The fixed stop-word list of `word_bank.rs`, transcribed verbatim. -/
def STOP_WORDS : List String :=
  ["the", "be", "to", "of", "and", "a", "in", "that", "have", "i", "it", "for", "not", "on",
   "with", "he", "as", "you", "do", "at", "this", "but", "his", "by", "from", "they", "we",
   "say", "her", "she", "or", "an", "will", "my", "one", "all", "would", "there", "their",
   "what", "so", "up", "out", "if", "about", "who", "get", "which", "go", "me", "when",
   "make", "can", "like", "time", "no", "just", "him", "know", "take", "people", "into",
   "year", "your", "good", "some", "could", "them", "see", "other", "than", "then", "now",
   "look", "only", "come", "its", "over", "think", "also", "back", "after", "use", "two",
   "how", "our", "work", "first", "well", "way", "even", "new", "want", "because", "any",
   "these", "give", "day", "most", "us", "is", "was", "are", "been", "has", "had", "were",
   "said", "did", "having", "may", "should", "am", "being", "does"]

/-- The free function `is_stop_word` of `word_bank.rs`. -/
def is_stop_word (word : String) : Bool := STOP_WORDS.contains word

/-- The `WordBank` struct: its `HashSet<String>` is modelled as a duplicate-free
list. -/
structure WordBank where
  words : List String
deriving DecidableEq, Repr

/-- `WordBank::new`. -/
def WordBank.new : WordBank := ⟨[]⟩

/-- `HashSet::insert`: adds the word only when it is not already present. -/
def insertSet (ws : List String) (w : String) : List String :=
  if w ∈ ws then ws else ws ++ [w]

/-- `WordBank::add_words`: inserts each word passing
`!is_stop_word(&word) && word.len() >= 3` (byte length). -/
def WordBank.add_words (bank : WordBank) (ws : List String) : WordBank :=
  ⟨ws.foldl
    (fun acc word =>
      if ! is_stop_word word && decide (3 ≤ word.utf8ByteSize) then insertSet acc word
      else acc)
    bank.words⟩

/-- `WordBank::get_words` (iteration order is the insertion order of the
model). -/
def WordBank.get_words (bank : WordBank) : List String := bank.words

/-- `WordBank::word_count`. -/
def WordBank.word_count (bank : WordBank) : Nat := bank.words.length

/-- A token admitted by the insertion filter of `add_words`. -/
def admissible (w : String) : Prop := is_stop_word w = false ∧ 3 ≤ w.utf8ByteSize

/-! Embedding of `src/parser.rs`.  Strings are processed on their character
lists.  Rust `char::is_alphanumeric` and `to_lowercase` are Unicode-aware;
the model uses the ASCII classifiers of Lean (`Char.isAlphanum`,
`Char.toLower`), which agree with Rust on the ASCII inputs of the claims. -/

/-- Splitting into maximal whitespace-free runs: the model of Rust
`str::split_whitespace` (which omits empty pieces). -/
def splitWsAux : List Char → List Char → List (List Char)
  | [], acc => if acc.isEmpty then [] else [acc.reverse]
  | c :: rest, acc =>
    if c.isWhitespace then
      if acc.isEmpty then splitWsAux rest [] else acc.reverse :: splitWsAux rest []
    else
      splitWsAux rest (c :: acc)

/-- String-level whitespace splitting. -/
def splitWhitespace (s : String) : List String :=
  (splitWsAux s.toList []).map String.mk

/-- Model of `str::trim_matches(|c: char| !c.is_alphanumeric())`: drops
non-alphanumeric characters from both ends. -/
def trimNonAlnum (s : String) : String :=
  String.mk ((((s.toList.dropWhile fun c => ! c.isAlphanum).reverse.dropWhile
    fun c => ! c.isAlphanum).reverse))

/-- Model of `str::to_lowercase` (ASCII range). -/
def lowercase (s : String) : String := String.mk (s.toList.map Char.toLower)

/-- The free function `extract_words` of `parser.rs`: split on whitespace,
trim non-alphanumerics from both ends, lowercase, drop empties. -/
def extract_words (text : String) : List String :=
  ((splitWhitespace text).map fun word => lowercase (trimNonAlnum word)).filter
    fun word => ! word.isEmpty

/-- The pulldown-cmark events distinguished by `parse_markdown`: code-block
delimiters, text runs, inline code, and everything else (matched by the
wildcard arm of the source). -/
inductive MdEvent where
  | startCodeBlock : MdEvent
  | endCodeBlock : MdEvent
  | text : String → MdEvent
  | code : String → MdEvent
  | other : MdEvent
deriving DecidableEq, Repr

/-- The event loop of `parse_markdown`: tracks `in_code_block` and appends the
payload of `Text` and `Code` events (followed by one space) only outside code
blocks. -/
def collectText : List MdEvent → Bool → String → String
  | [], _, acc => acc
  | MdEvent.startCodeBlock :: rest, _, acc => collectText rest true acc
  | MdEvent.endCodeBlock :: rest, _, acc => collectText rest false acc
  | MdEvent.text t :: rest, inCode, acc =>
    if inCode then collectText rest inCode acc else collectText rest inCode (acc ++ t ++ " ")
  | MdEvent.code t :: rest, inCode, acc =>
    if inCode then collectText rest inCode acc else collectText rest inCode (acc ++ t ++ " ")
  | MdEvent.other :: rest, inCode, acc => collectText rest inCode acc

/-- `parse_markdown`, parameterised by the event stream the external markdown
parser produces for the document. -/
def parse_markdown (events : List MdEvent) : List String :=
  extract_words (collectText events false "")

/-- Specification-side description of the same loop: the payloads of text runs
and inline code lying outside code blocks, in order. -/
def outsideTexts : List MdEvent → Bool → List String
  | [], _ => []
  | MdEvent.startCodeBlock :: rest, _ => outsideTexts rest true
  | MdEvent.endCodeBlock :: rest, _ => outsideTexts rest false
  | MdEvent.text t :: rest, inCode =>
    if inCode then outsideTexts rest inCode else t :: outsideTexts rest inCode
  | MdEvent.code t :: rest, inCode =>
    if inCode then outsideTexts rest inCode else t :: outsideTexts rest inCode
  | MdEvent.other :: rest, inCode => outsideTexts rest inCode

/-- Concatenation with a single separating space after each piece, as the
specification describes the text accumulated by `parse_markdown`. -/
def joinSpaced : List String → String
  | [] => ""
  | t :: rest => t ++ " " ++ joinSpaced rest

/-- Modelled from the spec: the event stream the external markdown parser
(pulldown-cmark, not part of this repository) emits for the scenario document
of the claim, a paragraph with body text "Hello World" followed by a fenced
code block containing "ignore_this". -/
def exampleMdEvents : List MdEvent :=
  [MdEvent.other, MdEvent.text ("Hello World"), MdEvent.other,
   MdEvent.startCodeBlock, MdEvent.text ("ignore_this\n"), MdEvent.endCodeBlock]

/-! Embedding of `src/ui.rs` (the `App` state and its claim-relevant
operations).  The `f32` density is modelled as an exact rational; the fields
`styling` and `directory`, pure rendering data with no algorithmic content,
are omitted. -/

/-- The claim-relevant fields of the `App` struct of `ui.rs`. -/
structure App where
  scattered_words : List ScatteredWord
  word_count : Nat
  selected_word_index : Option Nat
  highlighted_words : List Nat
  density : ℚ
  use_dimmed_current : Bool
  fullscreen_mode : Bool
deriving DecidableEq, Repr

/-- `App::new`. -/
def App.new (scattered_words : List ScatteredWord) (word_count : Nat) : App :=
  ⟨scattered_words, word_count, some 0, [0], 1, false, false⟩

/-- `App::update_words`. -/
def App.update_words (app : App) (scattered_words : List ScatteredWord) : App :=
  { app with scattered_words := scattered_words, selected_word_index := some 0,
             highlighted_words := [0] }

/-- `App::select_next_word`.  The source computes
`(index + 1) % self.scattered_words.len()`; the Rust remainder operator panics
when the divisor is zero, modelled by `none`. -/
def App.select_next_word (app : App) : Option App :=
  match app.selected_word_index with
  | none => some app
  | some index =>
    if app.scattered_words.length = 0 then
      none
    else
      let next_index := (index + 1) % app.scattered_words.length
      some { app with
             selected_word_index := some next_index,
             highlighted_words :=
               if next_index ∈ app.highlighted_words then app.highlighted_words
               else app.highlighted_words ++ [next_index] }

/-- `App::select_prev_word` (total: it uses `saturating_sub`). -/
def App.select_prev_word (app : App) : App :=
  match app.selected_word_index with
  | none => app
  | some index =>
    let prev_index := if index = 0 then app.scattered_words.length - 1 else index - 1
    { app with
      selected_word_index := some prev_index,
      highlighted_words :=
        if prev_index ∈ app.highlighted_words then app.highlighted_words
        else app.highlighted_words ++ [prev_index] }

/-- The step `(6.0 - 0.1) / bar_width.max(1)` computed by both density
operations of `ui.rs`, in exact arithmetic. -/
def densityStep (barWidth : Nat) : ℚ := (6 - 1 / 10) / (max barWidth 1 : ℚ)

/-- `App::increase_density`. -/
def App.increase_density (app : App) (barWidth : Nat) : App :=
  { app with density := min (app.density + densityStep barWidth) 6 }

/-- `App::decrease_density`. -/
def App.decrease_density (app : App) (barWidth : Nat) : App :=
  { app with density := max (app.density - densityStep barWidth) (1 / 10) }

/-- The density step exactly as the claim words it: `5.9 / bar_width`, with no
guard on a zero bar width. -/
def densityStepClaim (barWidth : Nat) : ℚ := (6 - 1 / 10) / (barWidth : ℚ)

/-- One interactive density adjustment: an increase or a decrease, each
carrying the bar width passed by the key handler. -/
inductive DensityOp where
  | inc : Nat → DensityOp
  | dec : Nat → DensityOp
deriving DecidableEq, Repr

/-- Applying one density adjustment to the session state. -/
def applyDensityOp (app : App) : DensityOp → App
  | DensityOp.inc bw => app.increase_density bw
  | DensityOp.dec bw => app.decrease_density bw

/-! Helper lemmas about the placement loop. -/

theorem overlap_eq_false_sep {x y width : Nat} {word : String} {occ : List (Nat × Nat × Nat)}
    (hw : width ≤ 65533) (hx : x + u16 word.utf8ByteSize ≤ width)
    (h : is_overlapping_tight x y word occ = false) :
    ∀ o ∈ occ, o.2.2 < 65536 → o.1 + o.2.2 ≤ width →
      rowSeparated o (x, y, u16 word.utf8ByteSize) := by
  intro o ho hb1 hb2
  unfold rowSeparated
  dsimp only
  intro hrow
  rw [is_overlapping_tight, List.any_eq_false] at h
  have h2 := h o ho
  simp only [Bool.or_eq_true, Bool.and_eq_true, decide_eq_true_eq, not_or] at h2
  rcases h2 with ⟨h3, -⟩
  simp only [u16] at *
  omega

theorem genRangeIncl_zero (s : Nat → Nat) (i hi : Nat) :
    ∃ v, genRangeIncl s i 0 hi = some v ∧ v ≤ hi := by
  refine ⟨s i % (hi + 1), ?_, ?_⟩
  · simp [genRangeIncl]
  · have := Nat.mod_lt (s i) (show 0 < hi + 1 by omega)
    omega

theorem genRangeExcl_zero (s : Nat → Nat) (i hi : Nat) (h : 0 < hi) :
    ∃ v, genRangeExcl s i 0 hi = some v ∧ v < hi := by
  refine ⟨s i % hi, ?_, Nat.mod_lt _ h⟩
  simp [genRangeExcl, h]

/-- Every successful exit of the retry loop carries a candidate that passed
the collision check and lies inside the canvas under the wrapped 16-bit
length the program uses. -/
theorem placeAttempts_success_spec (s : Nat → Nat) (width height : Nat) (word : String)
    (occ : List (Nat × Nat × Nat)) :
    ∀ fuel attempts idx x y att2 idx2,
      placeAttempts s width height word occ attempts idx fuel = some (some (x, y), att2, idx2) →
      is_overlapping_tight x y word occ = false ∧
        x + u16 word.utf8ByteSize ≤ width ∧ y < height := by
  intro fuel
  induction fuel with
  | zero => intro attempts idx x y att2 idx2 h; simp [placeAttempts] at h
  | succ n ih =>
    intro attempts idx x y att2 idx2 h
    rw [placeAttempts] at h
    by_cases hmx : width - u16 word.utf8ByteSize = 0
    · simp [hmx] at h
    · simp only [hmx, if_false] at h
      obtain ⟨x0, hx0, hx0le⟩ := genRangeIncl_zero s idx (width - u16 word.utf8ByteSize)
      rcases Nat.eq_zero_or_pos height with hz | hpos
      · rw [hx0, hz] at h
        simp [genRangeExcl] at h
      · obtain ⟨y0, hy0, hy0lt⟩ := genRangeExcl_zero s (idx + 1) height hpos
        rw [hx0, hy0] at h
        by_cases hov : is_overlapping_tight x0 y0 word occ
        · simp only [hov, Bool.not_true, if_false] at h
          exact ih _ _ x y att2 idx2 h
        · simp only [Bool.not_eq_true] at hov
          simp only [hov, Bool.not_false, if_true, Option.some.injEq, Prod.mk.injEq] at h
          obtain ⟨⟨hx, hy⟩, -, -⟩ := h
          subst hx; subst hy
          exact ⟨hov, by omega, hy0lt⟩

/-- With at least one row the retry loop never panics. -/
theorem placeAttempts_isSome (s : Nat → Nat) (width height : Nat) (word : String)
    (occ : List (Nat × Nat × Nat)) (hh : 0 < height) :
    ∀ fuel attempts idx, ∃ r,
      placeAttempts s width height word occ attempts idx fuel = some r := by
  intro fuel
  induction fuel with
  | zero => intro attempts idx; exact ⟨(none, attempts, idx), rfl⟩
  | succ n ih =>
    intro attempts idx
    rw [placeAttempts]
    by_cases hmx : width - u16 word.utf8ByteSize = 0
    · exact ⟨(none, attempts, idx), by simp [hmx]⟩
    · obtain ⟨x0, hx0, -⟩ := genRangeIncl_zero s idx (width - u16 word.utf8ByteSize)
      obtain ⟨y0, hy0, -⟩ := genRangeExcl_zero s (idx + 1) height hh
      simp only [hmx, if_false, hx0, hy0]
      by_cases hov : is_overlapping_tight x0 y0 word occ
      · simp only [hov, Bool.not_true, if_false]
        exact ih _ _
      · simp only [Bool.not_eq_true] at hov
        exact ⟨(some (x0, y0), attempts, idx + 2), by simp [hov]⟩

/-- When the word is strictly narrower (in wrapped 16-bit length) than the
canvas, a loop exit without a placement means every attempt was made and
rejected: the final counter is the initial counter plus the fuel. -/
theorem placeAttempts_exhausted (s : Nat → Nat) (width height : Nat) (word : String)
    (occ : List (Nat × Nat × Nat)) (hmx : width - u16 word.utf8ByteSize ≠ 0) :
    ∀ fuel attempts idx att2 idx2,
      placeAttempts s width height word occ attempts idx fuel = some (none, att2, idx2) →
      att2 = attempts + fuel := by
  intro fuel
  induction fuel with
  | zero =>
    intro attempts idx att2 idx2 h
    simp only [placeAttempts, Option.some.injEq, Prod.mk.injEq] at h
    omega
  | succ n ih =>
    intro attempts idx att2 idx2 h
    rw [placeAttempts] at h
    simp only [hmx, if_false] at h
    obtain ⟨x0, hx0, -⟩ := genRangeIncl_zero s idx (width - u16 word.utf8ByteSize)
    rcases Nat.eq_zero_or_pos height with hz | hpos
    · rw [hx0, hz] at h
      simp [genRangeExcl] at h
    · obtain ⟨y0, hy0, -⟩ := genRangeExcl_zero s (idx + 1) height hpos
      rw [hx0, hy0] at h
      by_cases hov : is_overlapping_tight x0 y0 word occ
      · simp only [hov, Bool.not_true, if_false] at h
        have := ih _ _ _ _ h
        omega
      · simp only [Bool.not_eq_true] at hov
        simp [hov] at h

/-- An immediate loop exit (the `max_x == 0` break) leaves the counter and
the stream position untouched. -/
theorem placeAttempts_break (s : Nat → Nat) (width height : Nat) (word : String)
    (occ : List (Nat × Nat × Nat)) (hmx : width - u16 word.utf8ByteSize = 0)
    (fuel attempts idx : Nat) (hf : fuel ≠ 0) :
    placeAttempts s width height word occ attempts idx fuel = some (none, attempts, idx) := by
  cases fuel with
  | zero => exact absurd rfl hf
  | succ n => rw [placeAttempts]; simp [hmx]

/-- A successful fallback result lies inside the canvas, in wrapped 16-bit
length. -/
theorem placeFallback_success_spec (s : Nat → Nat) (width height : Nat) (word : String)
    (idx : Nat) (x y idx2 : Nat)
    (h : placeFallback s width height word idx = some ((x, y), idx2)) :
    (u16 word.utf8ByteSize ≤ width → x + u16 word.utf8ByteSize ≤ width) ∧ y < height := by
  rw [placeFallback] at h
  by_cases hmx : 0 < width - u16 word.utf8ByteSize
  · simp only [hmx, if_true] at h
    obtain ⟨x0, hx0, hx0le⟩ := genRangeIncl_zero s idx (width - u16 word.utf8ByteSize)
    rcases Nat.eq_zero_or_pos height with hz | hpos
    · rw [hx0, hz] at h
      simp [genRangeExcl] at h
    · obtain ⟨y0, hy0, hy0lt⟩ := genRangeExcl_zero s (idx + 1) height hpos
      rw [hx0, hy0] at h
      simp only [Option.some.injEq, Prod.mk.injEq] at h
      obtain ⟨⟨hx, hy⟩, -⟩ := h
      subst hx; subst hy
      exact ⟨fun _ => by omega, hy0lt⟩
  · simp only [hmx, if_false] at h
    rcases Nat.eq_zero_or_pos height with hz | hpos
    · rw [hz] at h
      simp [genRangeExcl] at h
    · obtain ⟨y0, hy0, hy0lt⟩ := genRangeExcl_zero s idx height hpos
      rw [hy0] at h
      simp only [Option.some.injEq, Prod.mk.injEq] at h
      obtain ⟨⟨hx, hy⟩, -⟩ := h
      subst hx; subst hy
      exact ⟨fun hfit => by omega, hy0lt⟩

/-- With at least one row the fallback never panics. -/
theorem placeFallback_isSome (s : Nat → Nat) (width height : Nat) (word : String)
    (idx : Nat) (hh : 0 < height) :
    ∃ x y idx2, placeFallback s width height word idx = some ((x, y), idx2) := by
  rw [placeFallback]
  by_cases hmx : 0 < width - u16 word.utf8ByteSize
  · obtain ⟨x0, hx0, -⟩ := genRangeIncl_zero s idx (width - u16 word.utf8ByteSize)
    obtain ⟨y0, hy0, -⟩ := genRangeExcl_zero s (idx + 1) height hh
    exact ⟨x0, y0, idx + 2, by simp [hmx, hx0, hy0]⟩
  · obtain ⟨y0, hy0, -⟩ := genRangeExcl_zero s idx height hh
    exact ⟨0, y0, idx + 1, by simp [hmx, hy0]⟩

/-- What one successful iteration of the word loop can do: either the word is
wider (in wrapped 16-bit length) than the canvas and nothing changes, or
exactly one in-canvas placement is appended, with the occupancy record
extended by the wrapped length exactly when the placement passed the
collision check. -/
theorem placeWord_some_spec (s : Nat → Nat) (width height : Nat) (st : GenState)
    (word : String) (st2 : GenState)
    (h : placeWord s width height st word = some st2) :
    (width < u16 word.utf8ByteSize ∧ st2.scattered = st.scattered ∧
       st2.occupied = st.occupied) ∨
    (∃ x y, x + u16 word.utf8ByteSize ≤ width ∧ y < height ∧
       st2.scattered = st.scattered ++ [⟨word, x, y⟩] ∧
       (st2.occupied = st.occupied ∨
         (st2.occupied = st.occupied ++ [(x, y, u16 word.utf8ByteSize)] ∧
          is_overlapping_tight x y word st.occupied = false))) := by
  rw [placeWord] at h
  rcases hpa : placeAttempts s width height word st.occupied 0 st.idx 100 with - | ⟨out, att, idx⟩
  · rw [hpa] at h; exact absurd h (by simp)
  · rw [hpa] at h
    rcases out with - | ⟨x, y⟩
    · simp only at h
      by_cases hfit : u16 word.utf8ByteSize ≤ width
      · simp only [hfit, if_true] at h
        rcases hfb : placeFallback s width height word idx with - | ⟨⟨x, y⟩, idx2⟩
        · rw [hfb] at h; exact absurd h (by simp)
        · rw [hfb] at h
          simp only [Option.some.injEq] at h
          obtain ⟨hx, hy⟩ := placeFallback_success_spec s width height word idx x y idx2 hfb
          refine Or.inr ⟨x, y, hx hfit, hy, ?_, Or.inl ?_⟩
          · rw [← h]
          · rw [← h]
      · simp only [hfit, if_false, Option.some.injEq] at h
        exact Or.inl ⟨by omega, by rw [← h], by rw [← h]⟩
    · simp only [Option.some.injEq] at h
      obtain ⟨hov, hxw, hyh⟩ :=
        placeAttempts_success_spec s width height word st.occupied 100 0 st.idx x y att idx hpa
      refine Or.inr ⟨x, y, hxw, hyh, ?_, Or.inr ⟨?_, hov⟩⟩
      · rw [← h]
      · rw [← h]

/-- With at least one row the word loop body never panics. -/
theorem placeWord_isSome (s : Nat → Nat) (width height : Nat) (st : GenState)
    (word : String) (hh : 0 < height) :
    ∃ st2, placeWord s width height st word = some st2 := by
  rw [placeWord]
  obtain ⟨⟨out, att, idx⟩, hpa⟩ :=
    placeAttempts_isSome s width height word st.occupied hh 100 0 st.idx
  rw [hpa]
  rcases out with - | ⟨x, y⟩
  · simp only
    by_cases hfit : u16 word.utf8ByteSize ≤ width
    · simp only [hfit, if_true]
      obtain ⟨x, y, idx2, hfb⟩ := placeFallback_isSome s width height word idx hh
      rw [hfb]
      exact ⟨_, rfl⟩
    · simp only [hfit, if_false]
      exact ⟨_, rfl⟩
  · exact ⟨_, rfl⟩

/-- A word that fits in wrapped 16-bit length is placed by its loop
iteration: exactly one placement of that word is appended. -/
theorem placeWord_fit_placed (s : Nat → Nat) (width height : Nat) (st : GenState)
    (word : String) (hh : 0 < height) (hfit : u16 word.utf8ByteSize ≤ width) :
    ∃ x y st2, placeWord s width height st word = some st2 ∧
      st2.scattered = st.scattered ++ [⟨word, x, y⟩] := by
  obtain ⟨st2, h⟩ := placeWord_isSome s width height st word hh
  rcases placeWord_some_spec s width height st word st2 h with ⟨hlt, -, -⟩ | ⟨x, y, -, -, hs, -⟩
  · omega
  · exact ⟨x, y, st2, h, hs⟩

/-- Invariants of a successful run of the word loop over a list of words. -/
theorem foldlM_placeWord_spec (s : Nat → Nat) (width height : Nat) :
    ∀ (ws : List String) (st st2 : GenState),
      List.foldlM (placeWord s width height) st ws = some st2 →
      (∃ t, st2.scattered = st.scattered ++ t ∧ t.length ≤ ws.length) ∧
      ((∀ w ∈ ws, u16 w.utf8ByteSize ≤ width) →
         st2.scattered.length = st.scattered.length + ws.length) ∧
      (∀ p ∈ st2.scattered, p ∈ st.scattered ∨
         (p.x + u16 p.word.utf8ByteSize ≤ width ∧ p.y < height)) ∧
      (∀ o ∈ st2.occupied, o ∈ st.occupied ∨
         ∃ p ∈ st2.scattered, (p.x, p.y, u16 p.word.utf8ByteSize) = o) ∧
      ((∀ o ∈ st.occupied, o.2.2 < 65536 ∧ o.1 + o.2.2 ≤ width) →
         ∀ o ∈ st2.occupied, o.2.2 < 65536 ∧ o.1 + o.2.2 ≤ width) ∧
      (width ≤ 65533 → (∀ o ∈ st.occupied, o.2.2 < 65536 ∧ o.1 + o.2.2 ≤ width) →
         st.occupied.Pairwise rowSeparated → st2.occupied.Pairwise rowSeparated) := by
  intro ws
  induction ws with
  | nil =>
    intro st st2 h
    simp only [List.foldlM, Option.pure_def, Option.some.injEq] at h
    subst h
    refine ⟨⟨[], by simp, by simp⟩, by simp, fun p hp => Or.inl hp,
      fun o ho => Or.inl ho, fun hb => hb, fun _ _ hpw => hpw⟩
  | cons w rest ih =>
    intro st st2 h
    rw [List.foldlM_cons] at h
    rcases hpw : placeWord s width height st w with - | stMid
    · rw [hpw] at h; exact absurd h (by simp)
    · rw [hpw] at h
      simp only [Option.bind_eq_bind, Option.some_bind] at h
      obtain ⟨⟨t, ht, htl⟩, hfits, hbounds, hocc, hbnd, hpair⟩ := ih stMid st2 h
      rcases placeWord_some_spec s width height st w stMid hpw with
        ⟨hwide, hsc, hoc⟩ | ⟨x, y, hxw, hyh, hsc, hoc⟩
      · refine ⟨⟨t, by rw [ht, hsc], by simpa using Nat.le_succ_of_le htl⟩, ?_, ?_, ?_, ?_, ?_⟩
        · intro hall
          have := hall w (by simp)
          omega
        · intro p hp
          rcases hbounds p hp with hmem | hb
          · exact Or.inl (hsc ▸ hmem)
          · exact Or.inr hb
        · intro o ho
          rcases hocc o ho with hmem | hex
          · exact Or.inl (hoc ▸ hmem)
          · exact Or.inr hex
        · intro hb
          exact hbnd (hoc ▸ hb)
        · intro hwle hb hp
          exact hpair hwle (hoc ▸ hb) (hoc ▸ hp)
      · have hbndMid : (∀ o ∈ st.occupied, o.2.2 < 65536 ∧ o.1 + o.2.2 ≤ width) →
            ∀ o ∈ stMid.occupied, o.2.2 < 65536 ∧ o.1 + o.2.2 ≤ width := by
          intro hb o ho
          rcases hoc with hoc | ⟨hoc, -⟩
          · exact hb o (hoc ▸ ho)
          · rw [hoc] at ho
            rcases List.mem_append.mp ho with hm1 | hm2
            · exact hb o hm1
            · simp only [List.mem_singleton] at hm2
              subst hm2
              refine ⟨?_, ?_⟩
              · show u16 w.utf8ByteSize < 65536
                simp only [u16]
                omega
              · exact hxw
        refine ⟨⟨⟨w, x, y⟩ :: t, by rw [ht, hsc, List.append_assoc]; rfl, by simpa using htl⟩,
          ?_, ?_, ?_, ?_, ?_⟩
        · intro hall
          have hrest := hfits (fun v hv => hall v (by simp [hv]))
          rw [hrest, hsc]
          simp only [List.length_append, List.length_cons, List.length_nil]
          omega
        · intro p hp
          rcases hbounds p hp with hmem | hb
          · rw [hsc] at hmem
            rcases List.mem_append.mp hmem with hm1 | hm2
            · exact Or.inl hm1
            · simp only [List.mem_singleton] at hm2
              subst hm2
              exact Or.inr ⟨hxw, hyh⟩
          · exact Or.inr hb
        · intro o ho
          rcases hoc with hoc | ⟨hoc, -⟩
          · rcases hocc o ho with hmem | hex
            · exact Or.inl (hoc ▸ hmem)
            · exact Or.inr hex
          · rcases hocc o ho with hmem | hex
            · rw [hoc] at hmem
              rcases List.mem_append.mp hmem with hm1 | hm2
              · exact Or.inl hm1
              · simp only [List.mem_singleton] at hm2
                refine Or.inr ⟨⟨w, x, y⟩, ?_, by rw [hm2]⟩
                have hmid : (⟨w, x, y⟩ : ScatteredWord) ∈ stMid.scattered := by
                  rw [hsc]; simp
                rw [ht]
                exact List.mem_append.mpr (Or.inl hmid)
            · exact Or.inr hex
        · intro hb
          exact hbnd (hbndMid hb)
        · intro hwle hb hp
          refine hpair hwle (hbndMid hb) ?_
          rcases hoc with hoc | ⟨hoc, hov⟩
          · exact hoc ▸ hp
          · rw [hoc]
            rw [List.pairwise_append]
            refine ⟨hp, List.pairwise_singleton _ _, ?_⟩
            intro a ha b hb2
            simp only [List.mem_singleton] at hb2
            subst hb2
            exact overlap_eq_false_sep hwle hxw hov a ha (hb a ha).1 (hb a ha).2

/-- With at least one row the whole word loop never panics. -/
theorem foldlM_placeWord_isSome (s : Nat → Nat) (width height : Nat) (hh : 0 < height) :
    ∀ (ws : List String) (st : GenState),
      ∃ st2, List.foldlM (placeWord s width height) st ws = some st2 := by
  intro ws
  induction ws with
  | nil => intro st; exact ⟨st, rfl⟩
  | cons w rest ih =>
    intro st
    obtain ⟨stMid, hpw⟩ := placeWord_isSome s width height st w hh
    obtain ⟨st2, h2⟩ := ih stMid
    refine ⟨st2, ?_⟩
    rw [List.foldlM_cons, hpw]
    simpa [Option.bind_eq_bind, Option.some_bind] using h2

/-- The drawn count sits between the configured bounds once both are capped
by the vocabulary size. -/
theorem drawCount_bounds (s : Nat → Nat) (poolLen baseRaw : Nat) :
    min (min_count baseRaw) poolLen ≤ min (drawCount s poolLen baseRaw) poolLen ∧
    min (drawCount s poolLen baseRaw) poolLen ≤ min poolLen (max_count baseRaw poolLen) := by
  have hmc : max_count baseRaw poolLen ≤ poolLen := by
    unfold max_count; omega
  unfold drawCount
  by_cases hlt : min_count baseRaw < max_count baseRaw poolLen
  · simp only [hlt, if_true]
    rw [genRangeIncl, if_pos (Nat.le_of_lt hlt)]
    simp only [Option.getD_some]
    have hmod :=
      Nat.mod_lt (s 0) (show 0 < max_count baseRaw poolLen + 1 - min_count baseRaw by omega)
    generalize s 0 % (max_count baseRaw poolLen + 1 - min_count baseRaw) = r at hmod ⊢
    omega
  · simp only [hlt, if_false]
    unfold min_count max_count base_count at *
    omega

/-! Claim theorems for the placement generator. -/

/-- C1, the claim exactly as stated fails on the code: a run of
`generate_with_density` produces two collision-checked (non-fallback,
recorded in `occupied_positions`) placements on the same row whose spans are
separated by exactly the 2-cell minimum gap, so the spans padded by 2 cells
on each side do intersect. -/
theorem scatters_C1_counterexample :
    (generateState ["aaa", "bbb"] 10 1 0 (takeSample ["aaa", "bbb"]) streamGapTwo).map
        GenState.occupied = some [(0, 0, 3), (5, 0, 3)] ∧
    ¬ paddedSpansDisjoint (0, 0, 3) (5, 0, 3) := by
  constructor
  · decide
  · intro hcl
    have := hcl rfl
    dsimp only [] at this
    omega

/-- C1 (amended): on a canvas of width at most 65533 (so that the `u16` gap
arithmetic cannot wrap), in every run of `generate_with_density` any two
collision-checked placements (the entries of `occupied_positions`, which
exclude exactly the fallback placements) on the same row have their recorded
16-bit spans `[x, x + (len(word) as u16))` separated by at least the 2-cell
minimum gap — equivalently, each such span padded by half the gap (1 cell)
per side is disjoint from the other; for words shorter than 65536 bytes the
recorded span is the true span.  Placements on different rows are
unconstrained, and every occupancy entry corresponds to a returned
placement. -/
theorem scatters_C1_gap_separation (pool : List String) (width height baseRaw : Nat)
    (sample : Nat → List String) (s : Nat → Nat) (st : GenState)
    (hw : width ≤ 65533)
    (hgen : generateState pool width height baseRaw sample s = some st) :
    st.occupied.Pairwise rowSeparated ∧
    ∀ o ∈ st.occupied, ∃ p ∈ st.scattered, (p.x, p.y, u16 p.word.utf8ByteSize) = o := by
  unfold generateState at hgen
  obtain ⟨-, -, -, hocc, -, hpair⟩ := foldlM_placeWord_spec s width height _ _ _ hgen
  refine ⟨hpair hw (fun o ho => by simp at ho) List.Pairwise.nil, ?_⟩
  intro o ho
  rcases hocc o ho with hmem | hex
  · simp at hmem
  · exact hex

theorem scatters_C1_gap_separation_witness :
    List.Pairwise rowSeparated [((0 : Nat), (0 : Nat), (3 : Nat)), (5, 0, 3)] :=
  (scatters_C1_gap_separation ["aaa", "bbb"] 10 1 0 (takeSample ["aaa", "bbb"]) streamGapTwo
    ⟨[⟨"aaa", 0, 0⟩, ⟨"bbb", 5, 0⟩], [(0, 0, 3), (5, 0, 3)], 5⟩ (by decide) (by decide)).1

/-- C2, the claim exactly as stated fails on the code: on a canvas of height
0 whose width admits a sampled word, the placement loop calls
`rng.gen_range(0..0)`, which panics, so `generate_with_density` does not
return normally for every width, height ≥ 0. -/
theorem scatters_C2_counterexample :
    generate_with_density ["aaa"] 5 0 0 (takeSample ["aaa"]) (fun _ => 0) = none := by
  decide

/-- C2 (amended): for every canvas of height ≥ 1 (any width ≥ 0), every
density and every vocabulary, `generate_with_density` returns normally — an
empty or partial placement sequence for canvases too small — and never
panics or loops beyond its bounded retries. -/
theorem scatters_C2_no_panic (pool : List String) (width height baseRaw : Nat)
    (sample : Nat → List String) (s : Nat → Nat) (hh : 1 ≤ height) :
    (generate_with_density pool width height baseRaw sample s).isSome = true := by
  unfold generate_with_density generateState
  obtain ⟨st2, h⟩ := foldlM_placeWord_isSome s width height hh
    (sample (drawCount s pool.length baseRaw)) ⟨[], [], 1⟩
  rw [h]
  rfl

theorem scatters_C2_no_panic_witness :
    (generate_with_density ["aaa"] 5 1 0 (takeSample ["aaa"]) (fun _ => 0)).isSome = true :=
  scatters_C2_no_panic ["aaa"] 5 1 0 (takeSample ["aaa"]) (fun _ => 0) (by decide)

/-- C3, the claim exactly as stated fails on the code: for a word whose
length equals the canvas width the retry loop breaks immediately
(`max_x == 0`) with its attempt counter still 0, and the word is then placed
through the unchecked fallback path — a fallback after 0, not 100,
collision-checked attempts. -/
theorem scatters_C3_counterexample :
    placeAttempts (fun _ => 0) 3 1 ("abc") [] 0 1 100 = some (none, 0, 1) ∧
    placeWord (fun _ => 0) 3 1 ⟨[], [], 1⟩ ("abc") = some ⟨[⟨"abc", 0, 0⟩], [], 2⟩ := by
  exact ⟨by decide, by decide⟩

/-- C3 (amended): on a canvas with at least one row, with `wlen(word)` the
wrapped 16-bit length `len(word) as u16` the program compares (equal to
`len(word)` for words shorter than 65536 bytes): for each word of the
shuffled sample, a fallback placement happens only after all 100
collision-checked attempts were made and rejected, or immediately when
`wlen(word) = width` (`max_x == 0`, zero checked attempts); a word with
`wlen(word) <= width` is always placed (exactly one placement is appended),
and a word is dropped exactly when `wlen(word) > width`. -/
theorem scatters_C3_fallback_policy (s : Nat → Nat) (width height : Nat) (word : String)
    (st : GenState) (hh : 1 ≤ height) :
    (∀ att idx2,
        placeAttempts s width height word st.occupied 0 st.idx 100 = some (none, att, idx2) →
        u16 word.utf8ByteSize ≤ width → att = 100 ∨ u16 word.utf8ByteSize = width) ∧
    (u16 word.utf8ByteSize ≤ width →
        ∃ x y st2, placeWord s width height st word = some st2 ∧
          st2.scattered = st.scattered ++ [⟨word, x, y⟩]) ∧
    (width < u16 word.utf8ByteSize →
        ∃ st2, placeWord s width height st word = some st2 ∧
          st2.scattered = st.scattered) := by
  refine ⟨?_, ?_, ?_⟩
  · intro att idx2 hpa hfit
    by_cases hmx : width - u16 word.utf8ByteSize = 0
    · exact Or.inr (by omega)
    · exact Or.inl (by
        simpa using
          placeAttempts_exhausted s width height word st.occupied hmx 100 0 st.idx att idx2 hpa)
  · exact fun hfit => placeWord_fit_placed s width height st word hh hfit
  · intro hwide
    obtain ⟨st2, h⟩ := placeWord_isSome s width height st word hh
    rcases placeWord_some_spec s width height st word st2 h with
      ⟨-, hsc, -⟩ | ⟨x, y, hxw, -, -, -⟩
    · exact ⟨st2, h, hsc⟩
    · omega

theorem scatters_C3_fallback_policy_witness :
    placeWord (fun _ => 0) 10 1 ⟨[], [], 1⟩ ("abc") ≠ none := by
  obtain ⟨x, y, st2, h1, -⟩ :=
    (scatters_C3_fallback_policy (fun _ => 0) 10 1 ("abc") ⟨[], [], 1⟩ (by decide)).2.1
      (by decide)
  rw [h1]
  simp

/-- C4: the number of returned placements is at most
`min(vocabulary_size, max_count)`, and when every sampled word fits the
canvas width it is at least `min(min_count, vocabulary_size)`.  The sampling
oracle obeys the `choose_multiple` contract. -/
theorem scatters_C4_count_bounds (pool : List String) (width height baseRaw : Nat)
    (sample : Nat → List String) (s : Nat → Nat) (st : GenState)
    (hh : 1 ≤ height)
    (hlen : ∀ c, (sample c).length = min c pool.length)
    (hgen : generateState pool width height baseRaw sample s = some st) :
    st.scattered.length ≤ min pool.length (max_count baseRaw pool.length) ∧
    ((∀ w ∈ sample (drawCount s pool.length baseRaw), w.utf8ByteSize ≤ width) →
      min (min_count baseRaw) pool.length ≤ st.scattered.length) := by
  unfold generateState at hgen
  obtain ⟨⟨t, ht, htl⟩, hfits, -, -, -, -⟩ := foldlM_placeWord_spec s width height _ _ _ hgen
  obtain ⟨hlow, hup⟩ := drawCount_bounds s pool.length baseRaw
  have hsel := hlen (drawCount s pool.length baseRaw)
  simp only [List.nil_append] at ht
  constructor
  · have hle : st.scattered.length ≤ (sample (drawCount s pool.length baseRaw)).length := by
      rw [ht]; exact htl
    omega
  · intro hall
    have heq := hfits (fun w hw => by
      have hreal := hall w hw
      have hmod : u16 w.utf8ByteSize ≤ w.utf8ByteSize := Nat.mod_le _ _
      omega)
    simp only [List.length_nil, Nat.zero_add] at heq
    omega

theorem scatters_C4_count_bounds_witness :
    (GenState.mk [⟨"aaa", 0, 0⟩, ⟨"bbb", 0, 1⟩] [(0, 0, 3), (0, 1, 3)] 5).scattered.length ≤
      min (["aaa", "bbb"] : List String).length
        (max_count 0 (["aaa", "bbb"] : List String).length) ∧
    min (min_count 0) (["aaa", "bbb"] : List String).length ≤
      (GenState.mk [⟨"aaa", 0, 0⟩, ⟨"bbb", 0, 1⟩] [(0, 0, 3), (0, 1, 3)] 5).scattered.length := by
  have h := scatters_C4_count_bounds ["aaa", "bbb"] 10 2 0 (takeSample ["aaa", "bbb"])
    streamTwoRows ⟨[⟨"aaa", 0, 0⟩, ⟨"bbb", 0, 1⟩], [(0, 0, 3), (0, 1, 3)], 5⟩
    (by decide) (fun c => by simp [takeSample, List.length_take]) (by decide)
  exact ⟨h.1, h.2 (by decide)⟩

/-- The byte length of an all-ASCII replicate string. -/
theorem replicate_a_utf8ByteSize :
    ∀ n, (String.mk (List.replicate n 'a')).utf8ByteSize = n := by
  intro n
  induction n with
  | zero => rfl
  | succ k ih =>
    have ih2 : String.utf8ByteSize.go (List.replicate k 'a') = k := ih
    rw [List.replicate_succ]
    show String.utf8ByteSize.go ('a' :: List.replicate k 'a') = k + 1
    rw [show String.utf8ByteSize.go ('a' :: List.replicate k 'a') =
          String.utf8ByteSize.go (List.replicate k 'a') + ('a').utf8Size from rfl]
    rw [ih2, show ('a').utf8Size = 1 from rfl]

theorem monsterWord_utf8ByteSize : monsterWord.utf8ByteSize = 65537 :=
  replicate_a_utf8ByteSize 65537

/-- On a 5-cell-wide one-row canvas, a vocabulary consisting of one word
whose wrapped 16-bit length is 1 produces exactly one placement, at the
origin, under the all-zero random stream. -/
theorem generate_single_thin (w : String) (hlen : u16 w.utf8ByteSize = 1) :
    generate_with_density [w] 5 1 0 (takeSample [w]) (fun _ => 0) = some [⟨w, 0, 0⟩] := by
  have hov : is_overlapping_tight 0 0 w [] = false := rfl
  have hpa : placeAttempts (fun _ => 0) 5 1 w [] 0 1 100 = some (some (0, 0), 0, 3) := by
    rw [show (100 : Nat) = 99 + 1 from rfl]
    rw [placeAttempts, hlen]
    norm_num
    rw [show genRangeIncl (fun _ => 0) 1 0 4 = some 0 from by decide,
        show genRangeExcl (fun _ => 0) 2 0 1 = some 0 from by decide]
    simp [hov]
  have hpw : placeWord (fun _ => 0) 5 1 ⟨[], [], 1⟩ w = some ⟨[⟨w, 0, 0⟩], [(0, 0, 1)], 3⟩ := by
    rw [placeWord]
    rw [show (⟨[], [], 1⟩ : GenState).occupied = [] from rfl,
        show (⟨[], [], 1⟩ : GenState).idx = 1 from rfl]
    rw [hpa]
    simp [hlen]
  have hdc : drawCount (fun _ => 0) (List.length [w]) 0 = 1 := by
    rw [show List.length [w] = 1 from rfl]
    decide
  unfold generate_with_density generateState
  rw [hdc]
  show Option.map GenState.scattered
      (List.foldlM (placeWord (fun _ => 0) 5 1) ⟨[], [], 1⟩ (takeSample [w] 1)) =
    some [⟨w, 0, 0⟩]
  rw [show takeSample [w] 1 = [w] from rfl]
  rw [List.foldlM_cons, hpw]
  rfl

/-- C9, the claim exactly as stated fails on the code: a vocabulary word of
65537 bytes on a 5-cell-wide canvas is placed — the source computes `max_x`
from the wrapped cast `word.len() as u16 = 1` — and the returned placement
has `x + len(word) = 65537 > width`, outside the canvas. -/
theorem scatters_C9_counterexample :
    generate_with_density [monsterWord] 5 1 0 (takeSample [monsterWord]) (fun _ => 0) =
      some [⟨monsterWord, 0, 0⟩] ∧
    5 < (0 : Nat) + monsterWord.utf8ByteSize := by
  constructor
  · refine generate_single_thin monsterWord ?_
    rw [monsterWord_utf8ByteSize]
    decide
  · rw [monsterWord_utf8ByteSize]
    omega

/-- C9 (amended): for every call with height ≥ 1, every returned placement —
collision-checked or fallback — satisfies `y < height` and fits the canvas in
the wrapped 16-bit width the program uses,
`x + (len(word) as u16) <= width`; whenever the word is shorter than 65536
bytes (every real terminal word), this is the original bound
`x + len(word) <= width`. -/
theorem scatters_C9_in_bounds (pool : List String) (width height baseRaw : Nat)
    (sample : Nat → List String) (s : Nat → Nat) (st : GenState)
    (hh : 1 ≤ height)
    (hgen : generateState pool width height baseRaw sample s = some st) :
    ∀ p ∈ st.scattered,
      p.x + u16 p.word.utf8ByteSize ≤ width ∧ p.y < height ∧
      (p.word.utf8ByteSize < 65536 → p.x + p.word.utf8ByteSize ≤ width) := by
  unfold generateState at hgen
  obtain ⟨-, -, hbounds, -, -, -⟩ := foldlM_placeWord_spec s width height _ _ _ hgen
  intro p hp
  rcases hbounds p hp with hmem | hb
  · simp at hmem
  · refine ⟨hb.1, hb.2, fun hsmall => ?_⟩
    have hid : u16 p.word.utf8ByteSize = p.word.utf8ByteSize := Nat.mod_eq_of_lt hsmall
    have := hb.1
    omega

theorem scatters_C9_in_bounds_witness :
    (ScatteredWord.mk ("aaa") 0 0).x + u16 (ScatteredWord.mk ("aaa") 0 0).word.utf8ByteSize ≤ 10 ∧
    (ScatteredWord.mk ("aaa") 0 0).y < 1 :=
  have h := scatters_C9_in_bounds ["aaa"] 10 1 0 (takeSample ["aaa"]) (fun _ => 0)
    ⟨[⟨"aaa", 0, 0⟩], [(0, 0, 3)], 3⟩ (by decide) (by decide) ⟨"aaa", 0, 0⟩ (by simp)
  ⟨h.1, h.2.1⟩

/-! Helper lemmas for the vocabulary store. -/

theorem insertSet_mem (ws : List String) (v w : String) :
    w ∈ insertSet ws v ↔ w ∈ ws ∨ w = v := by
  unfold insertSet
  by_cases h : v ∈ ws
  · simp only [h, if_true]
    constructor
    · exact fun hw => Or.inl hw
    · rintro (hw | rfl)
      · exact hw
      · exact h
  · simp [h]

theorem insertSet_nodup (ws : List String) (v : String) (h : ws.Nodup) :
    (insertSet ws v).Nodup := by
  unfold insertSet
  by_cases hv : v ∈ ws
  · simpa [hv]
  · simp only [hv, if_false]
    rw [List.nodup_append]
    exact ⟨h, List.nodup_singleton v, by simpa [List.disjoint_singleton] using hv⟩

theorem add_words_filter_cond (v : String) :
    ((! is_stop_word v && decide (3 ≤ v.utf8ByteSize)) = true) ↔ admissible v := by
  simp [admissible, Bool.and_eq_true, Bool.not_eq_true']

theorem add_words_loop_mem :
    ∀ (ws acc : List String) (w : String),
      w ∈ ws.foldl
          (fun acc word =>
            if ! is_stop_word word && decide (3 ≤ word.utf8ByteSize) then insertSet acc word
            else acc) acc ↔
        w ∈ acc ∨ (w ∈ ws ∧ admissible w) := by
  intro ws
  induction ws with
  | nil => intro acc w; simp
  | cons v rest ih =>
    intro acc w
    rw [List.foldl_cons]
    by_cases hadm : admissible v
    · rw [if_pos ((add_words_filter_cond v).mpr hadm), ih, insertSet_mem]
      constructor
      · rintro ((hw | rfl) | ⟨hmem, ha⟩)
        · exact Or.inl hw
        · exact Or.inr ⟨by simp, hadm⟩
        · exact Or.inr ⟨by simp [hmem], ha⟩
      · rintro (hw | ⟨hmem, ha⟩)
        · exact Or.inl (Or.inl hw)
        · rcases List.mem_cons.mp hmem with rfl | hmem2
          · exact Or.inl (Or.inr rfl)
          · exact Or.inr ⟨hmem2, ha⟩
    · rw [if_neg (fun hc => hadm ((add_words_filter_cond v).mp hc)), ih]
      constructor
      · rintro (hw | ⟨hmem, ha⟩)
        · exact Or.inl hw
        · exact Or.inr ⟨by simp [hmem], ha⟩
      · rintro (hw | ⟨hmem, ha⟩)
        · exact Or.inl hw
        · rcases List.mem_cons.mp hmem with rfl | hmem2
          · exact absurd ha hadm
          · exact Or.inr ⟨hmem2, ha⟩

theorem add_words_loop_nodup :
    ∀ (ws acc : List String), acc.Nodup →
      (ws.foldl
        (fun acc word =>
          if ! is_stop_word word && decide (3 ≤ word.utf8ByteSize) then insertSet acc word
          else acc) acc).Nodup := by
  intro ws
  induction ws with
  | nil => intro acc h; simpa
  | cons v rest ih =>
    intro acc h
    rw [List.foldl_cons]
    by_cases hc : (! is_stop_word v && decide (3 ≤ v.utf8ByteSize)) = true
    · rw [if_pos hc]
      exact ih _ (insertSet_nodup acc v h)
    · rw [if_neg hc]
      exact ih _ h

theorem add_words_mem (bank : WordBank) (ws : List String) (w : String) :
    w ∈ (bank.add_words ws).words ↔ w ∈ bank.words ∨ (w ∈ ws ∧ admissible w) :=
  add_words_loop_mem ws bank.words w

theorem foldl_add_words_mem :
    ∀ (batches : List (List String)) (bank : WordBank) (w : String),
      w ∈ (batches.foldl WordBank.add_words bank).words ↔
        w ∈ bank.words ∨ (w ∈ batches.flatten ∧ admissible w) := by
  intro batches
  induction batches with
  | nil => intro bank w; simp
  | cons b rest ih =>
    intro bank w
    rw [List.foldl_cons, ih, add_words_mem]
    simp only [List.flatten_cons, List.mem_append]
    tauto

theorem foldl_add_words_nodup :
    ∀ (batches : List (List String)) (bank : WordBank), bank.words.Nodup →
      (batches.foldl WordBank.add_words bank).words.Nodup := by
  intro batches
  induction batches with
  | nil => intro bank h; simpa
  | cons b rest ih =>
    intro bank h
    rw [List.foldl_cons]
    exact ih _ (add_words_loop_nodup b bank.words h)

/-! Claim theorems for the vocabulary store and the tokenizer. -/

/-- C5: a vocabulary built by any sequence of `add_words` calls from the
empty bank contains a word exactly when it is an admissible input token
(length at least 3 bytes, not a stop word), contains no duplicates — each
distinct admissible token exactly once, however many times it was added —
and every member passes the filter. -/
theorem word_bank_C5_set_invariant (batches : List (List String)) :
    (batches.foldl WordBank.add_words WordBank.new).words.Nodup ∧
    (∀ w, w ∈ (batches.foldl WordBank.add_words WordBank.new).words ↔
       (w ∈ batches.flatten ∧ is_stop_word w = false ∧ 3 ≤ w.utf8ByteSize)) ∧
    (∀ w ∈ (batches.foldl WordBank.add_words WordBank.new).words,
       3 ≤ w.utf8ByteSize ∧ is_stop_word w = false) ∧
    (∀ w ∈ batches.flatten, is_stop_word w = false → 3 ≤ w.utf8ByteSize →
       (batches.foldl WordBank.add_words WordBank.new).words.count w = 1) := by
  have hnd : (batches.foldl WordBank.add_words WordBank.new).words.Nodup :=
    foldl_add_words_nodup batches WordBank.new List.nodup_nil
  have hmem : ∀ w, w ∈ (batches.foldl WordBank.add_words WordBank.new).words ↔
      (w ∈ batches.flatten ∧ is_stop_word w = false ∧ 3 ≤ w.utf8ByteSize) := by
    intro w
    rw [foldl_add_words_mem]
    unfold admissible
    simp [WordBank.new]
  refine ⟨hnd, hmem, ?_, ?_⟩
  · intro w hw
    have := (hmem w).mp hw
    exact ⟨this.2.2, this.2.1⟩
  · intro w hw hstop hlen
    have hin : w ∈ (batches.foldl WordBank.add_words WordBank.new).words :=
      (hmem w).mpr ⟨hw, hstop, hlen⟩
    have hle := List.nodup_iff_count_le_one.mp hnd w
    have hpos := List.count_pos_iff.mpr hin
    omega

theorem word_bank_C5_set_invariant_witness :
    (List.foldl WordBank.add_words WordBank.new
      [["the", "fox", "fox"], ["hello"]]).words.count ("fox") = 1 :=
  (word_bank_C5_set_invariant [["the", "fox", "fox"], ["hello"]]).2.2.2 ("fox")
    (by decide) (by decide) (by decide)

/-- C6: tokenizing the plain text of the scenario with `extract_words` yields
the four expected tokens, and adding them to an empty `WordBank` yields
exactly the vocabulary consisting of "quick-brown" and "fox" ("the" is a stop
word, the duplicate "fox" is deduplicated). -/
theorem parser_C6_tokenize_scenario :
    extract_words ("The Quick-Brown fox! fox.") = ["the", "quick-brown", "fox", "fox"] ∧
    (WordBank.new.add_words (extract_words ("The Quick-Brown fox! fox."))).words =
      ["quick-brown", "fox"] :=
  ⟨by decide, by decide⟩

/-! Claim theorems for the markdown event loop and the interactive state. -/

theorem collectText_eq_joinSpaced :
    ∀ (events : List MdEvent) (inCode : Bool) (acc : String),
      collectText events inCode acc = acc ++ joinSpaced (outsideTexts events inCode) := by
  intro events
  induction events with
  | nil =>
    intro b acc
    simp [collectText, outsideTexts, joinSpaced]
  | cons e rest ih =>
    intro b acc
    cases e with
    | startCodeBlock =>
      rw [show collectText (MdEvent.startCodeBlock :: rest) b acc = collectText rest true acc
          from rfl]
      rw [show outsideTexts (MdEvent.startCodeBlock :: rest) b = outsideTexts rest true from rfl]
      exact ih true acc
    | endCodeBlock =>
      rw [show collectText (MdEvent.endCodeBlock :: rest) b acc = collectText rest false acc
          from rfl]
      rw [show outsideTexts (MdEvent.endCodeBlock :: rest) b = outsideTexts rest false from rfl]
      exact ih false acc
    | text t =>
      cases b with
      | true =>
        rw [show collectText (MdEvent.text t :: rest) true acc = collectText rest true acc
            from rfl]
        rw [show outsideTexts (MdEvent.text t :: rest) true = outsideTexts rest true from rfl]
        exact ih true acc
      | false =>
        rw [show collectText (MdEvent.text t :: rest) false acc =
              collectText rest false (acc ++ t ++ " ") from rfl]
        rw [show outsideTexts (MdEvent.text t :: rest) false =
              t :: outsideTexts rest false from rfl]
        rw [ih false (acc ++ t ++ " ")]
        rw [show joinSpaced (t :: outsideTexts rest false) =
              t ++ " " ++ joinSpaced (outsideTexts rest false) from rfl]
        simp [String.append_assoc]
    | code t =>
      cases b with
      | true =>
        rw [show collectText (MdEvent.code t :: rest) true acc = collectText rest true acc
            from rfl]
        rw [show outsideTexts (MdEvent.code t :: rest) true = outsideTexts rest true from rfl]
        exact ih true acc
      | false =>
        rw [show collectText (MdEvent.code t :: rest) false acc =
              collectText rest false (acc ++ t ++ " ") from rfl]
        rw [show outsideTexts (MdEvent.code t :: rest) false =
              t :: outsideTexts rest false from rfl]
        rw [ih false (acc ++ t ++ " ")]
        rw [show joinSpaced (t :: outsideTexts rest false) =
              t ++ " " ++ joinSpaced (outsideTexts rest false) from rfl]
        simp [String.append_assoc]
    | other =>
      rw [show collectText (MdEvent.other :: rest) b acc = collectText rest b acc from rfl]
      rw [show outsideTexts (MdEvent.other :: rest) b = outsideTexts rest b from rfl]
      exact ih b acc

/-- C7: the markdown event loop concatenates the text of text runs and
inline code, each followed by a single separating space, and entirely
excludes text inside code blocks; on the scenario document (body text
"Hello World", fenced code block containing "ignore_this") the vocabulary is
exactly "hello" and "world" and "ignore_this" never appears. -/
theorem parser_C7_markdown_exclusion (events : List MdEvent) :
    collectText events false "" = joinSpaced (outsideTexts events false) ∧
    parse_markdown exampleMdEvents = ["hello", "world"] ∧
    ("ignore_this") ∉ parse_markdown exampleMdEvents ∧
    (WordBank.new.add_words (parse_markdown exampleMdEvents)).words = ["hello", "world"] := by
  refine ⟨?_, by decide, by decide, by decide⟩
  have h := collectText_eq_joinSpaced events false ""
  simpa using h

theorem parser_C7_markdown_exclusion_witness :
    collectText exampleMdEvents false "" = joinSpaced (outsideTexts exampleMdEvents false) :=
  (parser_C7_markdown_exclusion exampleMdEvents).1

/-- Non-negativity of the clamped density step. -/
theorem densityStep_nonneg (bw : Nat) : 0 ≤ densityStep bw := by
  unfold densityStep
  apply div_nonneg
  · norm_num
  · positivity

/-- The density invariant is preserved by every adjustment sequence. -/
theorem density_inv_aux :
    ∀ (ops : List DensityOp) (app : App),
      1 / 10 ≤ app.density → app.density ≤ 6 →
      1 / 10 ≤ (ops.foldl applyDensityOp app).density ∧
        (ops.foldl applyDensityOp app).density ≤ 6 := by
  intro ops
  induction ops with
  | nil => intro app h1 h2; exact ⟨h1, h2⟩
  | cons op rest ih =>
    intro app h1 h2
    rw [List.foldl_cons]
    cases op with
    | inc bw =>
      refine ih _ ?_ ?_
      · have := densityStep_nonneg bw
        simp only [applyDensityOp, App.increase_density]
        refine le_min (by linarith) (by norm_num)
      · simp only [applyDensityOp, App.increase_density]
        exact min_le_right _ _
    | dec bw =>
      refine ih _ ?_ ?_
      · simp only [applyDensityOp, App.decrease_density]
        exact le_max_right _ _
      · have := densityStep_nonneg bw
        simp only [applyDensityOp, App.decrease_density]
        refine max_le (by linarith) (by norm_num)

/-- C8, the claim exactly as stated fails on the code: the step the claim
gives, `5.9 / bar_width`, does not describe the call at `bar_width = 0` —
the code divides by `bar_width.max(1)` and moves the density by 5.9 (here
from 1.0 up to the clamp at 6.0), while the claim formula divides by
zero. -/
theorem ui_C8_counterexample :
    ((App.new [] 0).increase_density 0).density = 6 ∧
    min ((App.new [] 0).density + densityStepClaim 0) 6 = 1 := by
  constructor
  · show min ((1 : ℚ) + (6 - 1 / 10) / (max (0 : Nat) 1 : ℚ)) 6 = 6
    norm_num
  · show min ((1 : ℚ) + (6 - 1 / 10) / ((0 : Nat) : ℚ)) 6 = 1
    norm_num

/-- C8 (amended): starting from the initial density 1.0, after every
sequence of `increase_density` and `decrease_density` calls with any bar
widths, the density stays in [0.1, 6.0]; each call moves the density by the
step `5.9 / max(1, bar_width)` and then clamps, so where no clamp binds the
density changes by exactly that step. -/
theorem ui_C8_density_invariant (sw : List ScatteredWord) (wc : Nat) (ops : List DensityOp) :
    (1 / 10 ≤ (ops.foldl applyDensityOp (App.new sw wc)).density ∧
     (ops.foldl applyDensityOp (App.new sw wc)).density ≤ 6) ∧
    (∀ app : App, ∀ bw : Nat, app.density + densityStep bw ≤ 6 →
       (app.increase_density bw).density = app.density + densityStep bw) ∧
    (∀ app : App, ∀ bw : Nat, 1 / 10 ≤ app.density - densityStep bw →
       (app.decrease_density bw).density = app.density - densityStep bw) := by
  refine ⟨?_, ?_, ?_⟩
  · refine density_inv_aux ops (App.new sw wc) ?_ ?_
    · show (1 : ℚ) / 10 ≤ 1
      norm_num
    · show (1 : ℚ) ≤ 6
      norm_num
  · intro app bw h
    simp only [App.increase_density]
    exact min_eq_left h
  · intro app bw h
    simp only [App.decrease_density]
    exact max_eq_left h

theorem ui_C8_density_invariant_witness :
    ((App.new [] 0).increase_density 59).density = (App.new [] 0).density + densityStep 59 :=
  (ui_C8_density_invariant [] 0 []).2.1 (App.new [] 0) 59 (by
    show (1 : ℚ) + (6 - 1 / 10) / (max (59 : Nat) 1 : ℚ) ≤ 6
    norm_num)

/-- C10, the claim is right and the code is wrong: in the reachable state
whose placement list is empty (the valid outcome of a degenerate canvas,
reached through `App::new` or `App::update_words`), `select_next_word`
evaluates `(0 + 1) % 0` — a remainder by zero, which panics in Rust — and
`select_prev_word` returns with `selected_word_index = Some(0)`, an
out-of-bounds index for the empty placement list rather than `None` or a
valid index. -/
theorem ui_C10_empty_selection_bug :
    (App.new [] 0).select_next_word = none ∧
    ((App.new [] 0).select_prev_word).selected_word_index = some 0 ∧
    (App.new [] 0).scattered_words.length = 0 ∧
    ((App.new [] 0).update_words []).select_next_word = none :=
  ⟨rfl, rfl, rfl, rfl⟩
